import Mathlib

/-!
Verification of the topic-based publish/subscribe core of the ai_drone
ground-control-station dashboard: the connection registry
(`app/core/websocket.py`, class `WebSocketManager`) and the scheduling
harness (`app/core/monitor_manager.py`, class `MonitorManager`).

The embedding is shallow:

* A WebSocket connection is identified by a natural number (Python object
  identity); the registry state is the pair of the global connection set
  and the `topics` dict, the latter modelled as an insertion-ordered
  association list `List (String × Finset Conn)` so that the distinction
  between "topic absent from the dict" and "topic mapped to an empty set"
  is preserved, as is dict key order.
* Whether `websocket.send_json` raises for a given connection during one
  `broadcast` call is an environment input, passed as the set `fails` of
  connections whose send fails.  Whether `websocket.accept()` succeeds in
  `connect` is likewise a boolean environment input.
* `broadcast` returns, besides the new state and the sent count, the list
  of connections a send was attempted to and the optional message
  envelope it constructed, so that "no send attempted / no envelope
  constructed" claims are directly statable.
* The scheduling harness's async tasks are modelled by their observable
  event traces (invoke data function, attach timestamp, sleep, broadcast,
  log); exceptions raised by the opaque data function or by the broadcast
  call, and task cancellation, are environment inputs (`Outcome` values).
  Data functions are opaque callables the harness only stores and
  invokes, so they are represented by identifiers.  Intervals (Python
  `Optional[float]`) are modelled as `Option ℚ`.
-/

/-- A WebSocket connection, identified by Python object identity. -/
abbrev Conn := Nat

/-- State of `WebSocketManager`: the global connection set and the
`topics` dict mapping topic name to its subscriber set
(`app/core/websocket.py` lines 19-22). -/
structure WSManager where
  connections : Finset Conn
  topics : List (String × Finset Conn)
deriving DecidableEq

/-- The initial registry state built by `WebSocketManager.__init__`. -/
def WSManager.init : WSManager := ⟨∅, []⟩

/-- `WebSocketManager.disconnect` (lines 46-62): remove the connection
from the global set, discard it from every topic's subscriber set, and
delete every topic whose set is then empty. -/
def WSManager.disconnect (m : WSManager) (ws : Conn) : WSManager :=
  { connections := m.connections.erase ws
    topics := (m.topics.map fun p => (p.1, p.2.erase ws)).filter fun p => p.2 ≠ ∅ }

/-- `WebSocketManager.subscribe` (lines 64-82): create the topic's set if
absent (new dict keys append at the end, preserving insertion order),
add the connection, return `True`.  The `except` branch is unreachable:
the body performs only dict and set operations, which do not raise. -/
def WSManager.subscribe (m : WSManager) (ws : Conn) (topic : String) : WSManager × Bool :=
  if (m.topics.lookup topic).isSome then
    ({ m with topics := m.topics.map fun p =>
        if p.1 = topic then (p.1, insert ws p.2) else p }, true)
  else
    ({ m with topics := m.topics ++ [(topic, {ws})] }, true)

/-- `WebSocketManager.unsubscribe` (lines 84-96): discard the connection
from the topic's set, deleting the topic if the set is then empty;
a topic absent from the dict is left untouched. -/
def WSManager.unsubscribe (m : WSManager) (ws : Conn) (topic : String) : WSManager :=
  match m.topics.lookup topic with
  | none => m
  | some s =>
    if s.erase ws = ∅ then
      { m with topics := m.topics.filter fun p => p.1 ≠ topic }
    else
      { m with topics := m.topics.map fun p =>
          if p.1 = topic then (p.1, s.erase ws) else p }

/-- `WebSocketManager.connect` (lines 24-44): `accept` the connection
(success is the environment input `acceptOk`; on failure nothing is
mutated and `False` is returned), add it to the global set, and
optionally subscribe it to one topic. -/
def WSManager.connect (m : WSManager) (ws : Conn) (topic : Option String)
    (acceptOk : Bool) : WSManager × Bool :=
  if acceptOk then
    let m1 : WSManager := { m with connections := insert ws m.connections }
    match topic with
    | some t => ((m1.subscribe ws t).1, true)
    | none => (m1, true)
  else
    (m, false)

/-- The message envelope `{"topic": topic, "data": data}` built by
`broadcast` (lines 127-130); the payload dict is opaque here. -/
structure Envelope where
  topic : String
  data : Nat
deriving DecidableEq

/-- Observable result of one `broadcast` call: the registry state after
the call, the returned `sent_count`, the connections a send was
attempted to (the iterated snapshot copy of the subscriber set), and
the envelope constructed, if any. -/
structure BroadcastResult where
  state : WSManager
  sent_count : Nat
  attempts : List Conn
  envelope : Option Envelope
deriving DecidableEq

/-- `WebSocketManager.broadcast` (lines 114-148): a topic absent from the
dict returns 0 before the envelope is built; otherwise the envelope is
built, a send is attempted to every member of a snapshot copy of the
subscriber set, successes are counted, failing connections are collected
and `disconnect`ed after the iteration. -/
def WSManager.broadcast (m : WSManager) (topic : String) (data : Nat)
    (fails : Finset Conn) : BroadcastResult :=
  match m.topics.lookup topic with
  | none => ⟨m, 0, [], none⟩
  | some subs =>
    let message : Envelope := ⟨topic, data⟩
    let disconnected := subs ∩ fails
    let state := (disconnected.sort (· ≤ ·)).foldl WSManager.disconnect m
    ⟨state, (subs \ fails).card, subs.sort (· ≤ ·), some message⟩

/-- `WebSocketManager.get_topic_subscribers_count` (lines 189-197). -/
def WSManager.get_topic_subscribers_count (m : WSManager) (topic : String) : Nat :=
  ((m.topics.lookup topic).getD ∅).card

/-- `WebSocketManager.get_topics` (lines 199-205): the list of topic
names, in dict insertion order. -/
def WSManager.get_topics (m : WSManager) : List String :=
  m.topics.map Prod.fst

/-- One registry operation, with its environment inputs (accept success
for `connect`, the set of send-failing connections for `broadcast`). -/
inductive WSOp
  | connect (ws : Conn) (topic : Option String) (acceptOk : Bool)
  | subscribe (ws : Conn) (topic : String)
  | unsubscribe (ws : Conn) (topic : String)
  | disconnect (ws : Conn)
  | broadcast (topic : String) (data : Nat) (fails : Finset Conn)
deriving DecidableEq

/-- Apply one registry operation to a state. -/
def WSManager.applyOp (m : WSManager) : WSOp → WSManager
  | .connect ws topic acceptOk => (m.connect ws topic acceptOk).1
  | .subscribe ws topic => (m.subscribe ws topic).1
  | .unsubscribe ws topic => m.unsubscribe ws topic
  | .disconnect ws => m.disconnect ws
  | .broadcast topic data fails => (m.broadcast topic data fails).state

/-- The registry state reached from the fresh manager by a sequence of
operations. -/
def WSManager.run (ops : List WSOp) : WSManager :=
  ops.foldl WSManager.applyOp WSManager.init

/-- The registry invariant: every topic present in the dict has a
non-empty subscriber set. -/
def WSManager.Inv (m : WSManager) : Prop :=
  ∀ p ∈ m.topics, p.2 ≠ ∅

/-- A snapshot-producing data function; the harness treats these as
opaque callables it only stores and invokes, so they are represented by
identifiers. -/
abbrev DataFn := Nat

/-- The kind of scheduling task `start_all` creates for a topic:
one-shot when the interval is `None`, periodic otherwise
(`app/core/monitor_manager.py` lines 62-67). -/
inductive TaskKind
  | oneShot
  | periodic (interval : ℚ)
deriving DecidableEq

/-- An `asyncio` task handle: a fresh identity plus the kind of loop the
task runs. -/
structure TaskSpec where
  id : Nat
  kind : TaskKind
deriving DecidableEq

/-- One registered monitor's entry in the `monitors` dict:
`{"data_function": ..., "interval": ..., "task": ...}` (lines 44-48). -/
structure MonitorInfo where
  data_function : DataFn
  interval : Option ℚ
  task : Option TaskSpec
deriving DecidableEq

/-- State of `MonitorManager` (lines 20-23): the `monitors` dict (an
insertion-ordered association list) and the `static_sent` set of
one-shot topics already delivered, plus a counter providing fresh task
identities (an artifact standing for `asyncio.create_task` returning a
new task object). -/
structure MonitorManager where
  monitors : List (String × MonitorInfo)
  static_sent : Finset String
  next_task_id : Nat
deriving DecidableEq

/-- The state built by `MonitorManager.__init__`. -/
def MonitorManager.init : MonitorManager := ⟨[], ∅, 0⟩

/-- `MonitorManager.register_monitor` (lines 25-50): reject an already
registered topic with `False` and no mutation; otherwise append the new
entry, with no running task, and return `True`. -/
def MonitorManager.register_monitor (m : MonitorManager) (topic : String)
    (f : DataFn) (interval : Option ℚ) : MonitorManager × Bool :=
  if (m.monitors.lookup topic).isSome then
    (m, false)
  else
    ({ m with monitors := m.monitors ++ [(topic, ⟨f, interval, none⟩)] }, true)

/-- The dispatch on `monitor_info["interval"]` in `start_all` (lines
62-67): `None` means a one-shot task, any value a periodic task. -/
def kindOf : Option ℚ → TaskKind
  | none => TaskKind.oneShot
  | some i => TaskKind.periodic i

/-- Walk the `monitors` dict in order, launching a task for every entry
whose `task` handle is `None` and collecting the launched tasks; the
`Nat` argument threads the fresh task identities. -/
def startAllAux : Nat → List (String × MonitorInfo) →
    List (String × MonitorInfo) × Nat × List (String × TaskSpec)
  | n, [] => ([], n, [])
  | n, (t, info) :: rest =>
    match info.task with
    | some _ =>
      let r := startAllAux n rest
      ((t, info) :: r.1, r.2)
    | none =>
      let ts : TaskSpec := ⟨n, kindOf info.interval⟩
      let r := startAllAux (n + 1) rest
      ((t, { info with task := some ts }) :: r.1, r.2.1, (t, ts) :: r.2.2)

/-- `MonitorManager.start_all` (lines 52-70): for every registered topic
whose task handle is empty, create a one-shot task when the interval is
`None` and a periodic task otherwise, and store the handle; topics with
a running task are skipped.  Returns the new state and the list of
tasks launched by this call. -/
def MonitorManager.start_all (m : MonitorManager) :
    MonitorManager × List (String × TaskSpec) :=
  let r := startAllAux m.next_task_id m.monitors
  ({ m with monitors := r.1, next_task_id := r.2.1 }, r.2.2)

/-- An observable event of a monitor task: invoking the data function,
attaching the timestamp to the payload, completing an
`asyncio.sleep d`, calling `websocket_manager.broadcast` for a topic,
logging an error, or logging cancellation. -/
inductive MEvent
  | collect (f : DataFn)
  | stamp
  | sleep (d : ℚ)
  | bcast (topic : String)
  | logError
  | logCancelled
deriving DecidableEq

/-- Environment outcome of one attempted send sequence in a monitor
task: everything succeeds, the data function raises, or the broadcast
call raises. -/
inductive SendOutcome
  | ok
  | exnCollect
  | exnBroadcast
deriving DecidableEq

/-- `MonitorManager._send_one_time` (lines 87-109): return immediately
if the topic is in `static_sent`; otherwise look the monitor up (a
missing topic raises `KeyError`, caught and logged), invoke the data
function, attach the timestamp, sleep 1 second, broadcast, and only
then add the topic to `static_sent`.  Any exception is caught and
logged, and leaves `static_sent` unchanged.  Returns the new state and
the event trace. -/
def MonitorManager.send_one_time (m : MonitorManager) (topic : String)
    (out : SendOutcome) : MonitorManager × List MEvent :=
  if topic ∈ m.static_sent then
    (m, [])
  else
    match m.monitors.lookup topic with
    | none => (m, [.logError])
    | some info =>
      match out with
      | .exnCollect => (m, [.collect info.data_function, .logError])
      | .exnBroadcast =>
        (m, [.collect info.data_function, .stamp, .sleep 1, .bcast topic, .logError])
      | .ok =>
        ({ m with static_sent := insert topic m.static_sent },
         [.collect info.data_function, .stamp, .sleep 1, .bcast topic])

/-- Environment outcome of one iteration of the periodic steady-state
loop: success, the data function raises, the broadcast raises, or a
cancellation signal arrives at the sleep suspension point (aborting the
sleep). -/
inductive LoopOutcome
  | ok
  | exnCollect
  | exnBroadcast
  | cancelled
deriving DecidableEq

/-- The event trace of one iteration of the `while True` steady-state
loop of `MonitorManager._monitor_loop` (lines 138-163): invoke the data
function, attach the timestamp, sleep `interval`, broadcast; a
`CancelledError` is logged and breaks the loop; any other exception is
logged and followed by one more full-interval sleep. -/
def iterEvents (f : DataFn) (topic : String) (interval : ℚ) :
    LoopOutcome → List MEvent
  | .ok => [.collect f, .stamp, .sleep interval, .bcast topic]
  | .exnCollect => [.collect f, .logError, .sleep interval]
  | .exnBroadcast =>
    [.collect f, .stamp, .sleep interval, .bcast topic, .logError, .sleep interval]
  | .cancelled => [.collect f, .stamp, .logCancelled]

/-- The steady-state loop of `_monitor_loop`, run against a finite
prefix of environment outcomes: each non-cancelled iteration's events
are followed by the rest of the loop; a cancelled iteration's events end
the trace (the loop breaks, ignoring any further outcomes). -/
def steadyLoop (f : DataFn) (topic : String) (interval : ℚ) :
    List LoopOutcome → List MEvent
  | [] => []
  | .cancelled :: _ => iterEvents f topic interval .cancelled
  | o :: rest => iterEvents f topic interval o ++ steadyLoop f topic interval rest

/-! ### Helper lemmas about the registry -/

/-- The topics list after erasing every connection in `D` from every
subscriber set and pruning emptied topics (the cumulative effect of
disconnecting each member of `D`). -/
def eraseAllTopics : List (String × Finset Conn) → Finset Conn →
    List (String × Finset Conn)
  | [], _ => []
  | p :: T, D =>
    if p.2 \ D = ∅ then eraseAllTopics T D
    else (p.1, p.2 \ D) :: eraseAllTopics T D


lemma sdiff_sdiff_eq_union (s A B : Finset Conn) : (s \ A) \ B = s \ (A ∪ B) := by
  rw [← Finset.sup_eq_union, sdiff_sdiff_left]

lemma disconnect_topics (T : List (String × Finset Conn)) (a : Conn) :
    (T.map fun p => (p.1, p.2.erase a)).filter (fun p => p.2 ≠ ∅) =
      eraseAllTopics T {a} := by
  induction T with
  | nil => rfl
  | cons p T ih =>
    rw [List.map_cons, List.filter_cons]
    by_cases h : p.2.erase a = ∅
    · rw [if_neg (by simp [h]), eraseAllTopics,
        if_pos (by rwa [← Finset.erase_eq]), ih]
    · rw [if_pos (by simp [h]), eraseAllTopics,
        if_neg (by rwa [← Finset.erase_eq]), ih, Finset.erase_eq]

lemma disconnect_eq (m : WSManager) (a : Conn) :
    m.disconnect a = ⟨m.connections \ {a}, eraseAllTopics m.topics {a}⟩ := by
  unfold WSManager.disconnect
  rw [WSManager.mk.injEq]
  exact ⟨m.connections.erase_eq a, disconnect_topics m.topics a⟩

lemma eraseAllTopics_comp (T : List (String × Finset Conn)) (A B : Finset Conn) :
    eraseAllTopics (eraseAllTopics T A) B = eraseAllTopics T (A ∪ B) := by
  induction T with
  | nil => rfl
  | cons p T ih =>
    by_cases hA : p.2 \ A = ∅
    · have hAB : p.2 \ (A ∪ B) = ∅ := by
        rw [← sdiff_sdiff_eq_union, hA, Finset.empty_sdiff]
      rw [eraseAllTopics, if_pos hA, eraseAllTopics, if_pos hAB, ih]
    · rw [eraseAllTopics, if_neg hA]
      by_cases hB : (p.2 \ A) \ B = ∅
      · have hAB : p.2 \ (A ∪ B) = ∅ := by rw [← sdiff_sdiff_eq_union, hB]
        rw [eraseAllTopics, if_pos hB, eraseAllTopics, if_pos hAB, ih]
      · have hAB : p.2 \ (A ∪ B) ≠ ∅ := by rw [← sdiff_sdiff_eq_union]; exact hB
        rw [eraseAllTopics, if_neg hB, eraseAllTopics, if_neg hAB, ih,
          sdiff_sdiff_eq_union]

lemma foldl_disconnect_cons (L : List Conn) :
    ∀ (a : Conn) (m : WSManager),
    List.foldl WSManager.disconnect m (a :: L) =
      ⟨m.connections \ (a :: L).toFinset, eraseAllTopics m.topics (a :: L).toFinset⟩ := by
  induction L with
  | nil =>
    intro a m
    simpa using disconnect_eq m a
  | cons b L ih =>
    intro a m
    have h1 : List.foldl WSManager.disconnect m (a :: b :: L) =
        List.foldl WSManager.disconnect (m.disconnect a) (b :: L) := rfl
    rw [h1, ih b (m.disconnect a), disconnect_eq]
    have htf : ({a} : Finset Conn) ∪ (b :: L).toFinset = (a :: b :: L).toFinset := by
      rw [List.toFinset_cons, ← Finset.insert_eq, List.toFinset_cons, List.toFinset_cons]
    rw [WSManager.mk.injEq]
    exact ⟨by rw [sdiff_sdiff_eq_union, htf], by rw [eraseAllTopics_comp, htf]⟩

lemma mem_eraseAllTopics {T : List (String × Finset Conn)} {D : Finset Conn}
    {p : String × Finset Conn} :
    p ∈ eraseAllTopics T D ↔ ∃ q ∈ T, p = (q.1, q.2 \ D) ∧ q.2 \ D ≠ ∅ := by
  induction T with
  | nil => simp [eraseAllTopics]
  | cons q T ih =>
    by_cases h : q.2 \ D = ∅
    · rw [eraseAllTopics, if_pos h, ih]
      constructor
      · rintro ⟨r, hr, hpr, hne⟩
        exact ⟨r, List.mem_cons_of_mem _ hr, hpr, hne⟩
      · rintro ⟨r, hr, hpr, hne⟩
        rcases List.mem_cons.mp hr with h1 | h1
        · subst h1; exact absurd h hne
        · exact ⟨r, h1, hpr, hne⟩
    · rw [eraseAllTopics, if_neg h]
      constructor
      · intro hp
        rcases List.mem_cons.mp hp with h1 | h1
        · exact ⟨q, List.mem_cons_self _ _, h1, h⟩
        · obtain ⟨r, hr, hpr, hne⟩ := ih.mp h1
          exact ⟨r, List.mem_cons_of_mem _ hr, hpr, hne⟩
      · rintro ⟨r, hr, hpr, hne⟩
        rcases List.mem_cons.mp hr with h1 | h1
        · subst h1; exact hpr ▸ List.mem_cons_self _ _
        · exact List.mem_cons_of_mem _ (ih.mpr ⟨r, h1, hpr, hne⟩)

lemma lookup_eraseAllTopics {T : List (String × Finset Conn)} {D : Finset Conn}
    {t : String} {s : Finset Conn} (h : T.lookup t = some s) (hne : s \ D ≠ ∅) :
    (eraseAllTopics T D).lookup t = some (s \ D) := by
  induction T with
  | nil => simp at h
  | cons p T ih =>
    obtain ⟨k, v⟩ := p
    rw [List.lookup_cons] at h
    by_cases ht : t = k
    · subst ht
      simp only [beq_self_eq_true] at h
      have hvs : v = s := Option.some.inj h
      subst hvs
      rw [eraseAllTopics, if_neg hne, List.lookup_cons]
      simp
    · have hbe : (t == k) = false := beq_eq_false_iff_ne.mpr ht
      simp only [hbe] at h
      rw [eraseAllTopics]
      by_cases hp : v \ D = ∅
      · rw [if_pos hp]
        exact ih h
      · rw [if_neg hp, List.lookup_cons]
        simp only [hbe]
        exact ih h

lemma mem_of_lookup_eq_some {β : Type} {l : List (String × β)} {k : String} {b : β}
    (h : l.lookup k = some b) : (k, b) ∈ l := by
  obtain ⟨l₁, l₂, rfl, -⟩ := List.lookup_eq_some_iff.mp h
  simp

lemma inv_disconnect (m : WSManager) (ws : Conn) : (m.disconnect ws).Inv := by
  intro p hp
  rw [disconnect_eq] at hp
  obtain ⟨q, hq, hpq, hne⟩ := mem_eraseAllTopics.mp hp
  rw [hpq]
  exact hne

lemma inv_subscribe {m : WSManager} (h : m.Inv) (ws : Conn) (t : String) :
    ((m.subscribe ws t).1).Inv := by
  unfold WSManager.subscribe
  by_cases hc : (m.topics.lookup t).isSome
  · rw [if_pos hc]
    intro p hp
    simp only [List.mem_map] at hp
    obtain ⟨q, hq, hpq⟩ := hp
    by_cases hqt : q.1 = t
    · rw [if_pos hqt] at hpq
      rw [← hpq]
      exact Finset.insert_ne_empty ws q.2
    · rw [if_neg hqt] at hpq
      exact hpq ▸ h q hq
  · rw [if_neg hc]
    intro p hp
    rcases List.mem_append.mp hp with h1 | h1
    · exact h p h1
    · simp only [List.mem_singleton] at h1
      rw [h1]
      exact Finset.singleton_ne_empty ws

lemma inv_unsubscribe {m : WSManager} (h : m.Inv) (ws : Conn) (t : String) :
    (m.unsubscribe ws t).Inv := by
  unfold WSManager.unsubscribe
  split
  · exact h
  · rename_i s hl
    by_cases he : s.erase ws = ∅
    · rw [if_pos he]
      intro p hp
      exact h p (List.mem_of_mem_filter hp)
    · rw [if_neg he]
      intro p hp
      simp only [List.mem_map] at hp
      obtain ⟨q, hq, hpq⟩ := hp
      by_cases hqt : q.1 = t
      · rw [if_pos hqt] at hpq
        rw [← hpq]
        exact he
      · rw [if_neg hqt] at hpq
        exact hpq ▸ h q hq

lemma inv_connect {m : WSManager} (h : m.Inv) (ws : Conn) (topic : Option String)
    (acceptOk : Bool) : ((m.connect ws topic acceptOk).1).Inv := by
  unfold WSManager.connect
  by_cases hA : acceptOk = true
  · rw [if_pos hA]
    have hm1 : (WSManager.mk (insert ws m.connections) m.topics).Inv := h
    cases topic with
    | some t => exact inv_subscribe hm1 ws t
    | none => exact hm1
  · rw [if_neg hA]
    exact h

lemma inv_foldl_disconnect {m : WSManager} (h : m.Inv) (L : List Conn) :
    (L.foldl WSManager.disconnect m).Inv := by
  induction L generalizing m with
  | nil => exact h
  | cons a L ih => exact ih (inv_disconnect m a)

lemma inv_broadcast {m : WSManager} (h : m.Inv) (t : String) (d : Nat)
    (fails : Finset Conn) : ((m.broadcast t d fails).state).Inv := by
  unfold WSManager.broadcast
  cases hl : m.topics.lookup t with
  | none => exact h
  | some subs => exact inv_foldl_disconnect h _

lemma inv_applyOp {m : WSManager} (h : m.Inv) (op : WSOp) : (m.applyOp op).Inv := by
  cases op with
  | connect ws topic acceptOk => exact inv_connect h ws topic acceptOk
  | subscribe ws topic => exact inv_subscribe h ws topic
  | unsubscribe ws topic => exact inv_unsubscribe h ws topic
  | disconnect ws => exact inv_disconnect m ws
  | broadcast topic data fails => exact inv_broadcast h topic data fails

lemma inv_foldl_applyOp {m : WSManager} (h : m.Inv) (ops : List WSOp) :
    (ops.foldl WSManager.applyOp m).Inv := by
  induction ops generalizing m with
  | nil => exact h
  | cons op ops ih => exact ih (inv_applyOp h op)

lemma inv_run (ops : List WSOp) : (WSManager.run ops).Inv :=
  inv_foldl_applyOp (fun p hp => absurd hp (List.not_mem_nil p)) ops

/-- Claim C5: in every registry state reachable by any sequence of
connect, subscribe, unsubscribe, disconnect, and broadcast operations,
every topic present in the topics map has a non-empty subscriber set. -/
theorem reachable_topics_nonempty (ops : List WSOp) :
    ∀ p ∈ (WSManager.run ops).topics, p.2 ≠ ∅ :=
  inv_run ops

/-- Witness for C5: after connecting connection 1 with an immediate
subscription to topic a, that topic's entry is non-empty. -/
theorem reachable_topics_nonempty_witness :
    ("a", ({1} : Finset Conn)) ∈
      (WSManager.run [WSOp.connect 1 (some "a") true]).topics ∧
    (("a", ({1} : Finset Conn)).2 ≠ ∅) :=
  ⟨by decide, reachable_topics_nonempty [WSOp.connect 1 (some "a") true] _ (by decide)⟩

lemma foldl_disconnect_sort (m : WSManager) (D : Finset Conn) (hD : D ≠ ∅) :
    (D.sort (· ≤ ·)).foldl WSManager.disconnect m =
      ⟨m.connections \ D, eraseAllTopics m.topics D⟩ := by
  cases hs : D.sort (· ≤ ·) with
  | nil =>
    exfalso
    apply hD
    have h2 := Finset.sort_toFinset (· ≤ ·) D
    rw [hs] at h2
    simpa using h2.symm
  | cons a L =>
    have htf : (a :: L).toFinset = D := by
      rw [← hs]
      exact Finset.sort_toFinset _ D
    rw [foldl_disconnect_cons, htf]

lemma broadcast_none (m : WSManager) (t : String) (d : Nat) (fails : Finset Conn)
    (h : m.topics.lookup t = none) : m.broadcast t d fails = ⟨m, 0, [], none⟩ := by
  unfold WSManager.broadcast
  split
  · rfl
  · rename_i s hs
    rw [h] at hs
    cases hs

lemma broadcast_some (m : WSManager) (t : String) (d : Nat) (fails subs : Finset Conn)
    (h : m.topics.lookup t = some subs) :
    (m.broadcast t d fails).sent_count = (subs \ fails).card ∧
    (m.broadcast t d fails).state =
      (if subs ∩ fails = ∅ then m
       else ⟨m.connections \ (subs ∩ fails), eraseAllTopics m.topics (subs ∩ fails)⟩) := by
  unfold WSManager.broadcast
  split
  · rename_i hnone
    rw [h] at hnone
    cases hnone
  · rename_i s hs
    rw [h] at hs
    have hss : s = subs := (Option.some.inj hs).symm
    subst hss
    refine ⟨rfl, ?_⟩
    by_cases hD : s ∩ fails = ∅
    · rw [if_pos hD]
      show (List.foldl WSManager.disconnect m ((s ∩ fails).sort (· ≤ ·))) = m
      rw [hD, Finset.sort_empty]
      rfl
    · rw [if_neg hD]
      exact foldl_disconnect_sort m _ hD

/-- Claim C1: in a registry state where topic t has the subscriber set
subs with N members, of which the M members of subs ∩ fails fail their
send during broadcast, the call returns N − M, every failing connection
is afterwards absent from the global connection set and from every
topic's subscriber set, and the remaining N − M connections are still
subscribed to t. -/
theorem broadcast_fail_prune (m : WSManager) (t : String) (d : Nat)
    (fails subs : Finset Conn) (N M : Nat)
    (hsubs : m.topics.lookup t = some subs)
    (hN : subs.card = N) (hM : (subs ∩ fails).card = M) :
    (m.broadcast t d fails).sent_count = N - M ∧
    (∀ c ∈ subs ∩ fails,
      c ∉ (m.broadcast t d fails).state.connections ∧
      ∀ p ∈ (m.broadcast t d fails).state.topics, c ∉ p.2) ∧
    (∀ c ∈ subs \ fails,
      ∃ s', (m.broadcast t d fails).state.topics.lookup t = some s' ∧ c ∈ s') := by
  obtain ⟨hcount, hstate⟩ := broadcast_some m t d fails subs hsubs
  refine ⟨?_, ?_, ?_⟩
  · rw [hcount, ← Finset.sdiff_inter_self_left subs fails,
      Finset.card_sdiff Finset.inter_subset_left, hN, hM]
  · intro c hc
    have hD : subs ∩ fails ≠ ∅ := Finset.ne_empty_of_mem hc
    rw [hstate, if_neg hD]
    constructor
    · simp only [Finset.mem_sdiff, not_and, not_not]
      intro _
      exact hc
    · intro p hp
      obtain ⟨q, hq, hpq, hne⟩ := mem_eraseAllTopics.mp hp
      rw [hpq]
      simp only [Finset.mem_sdiff, not_and, not_not]
      intro _
      exact hc
  · intro c hc
    by_cases hD : subs ∩ fails = ∅
    · rw [hstate, if_pos hD]
      exact ⟨subs, hsubs, (Finset.mem_sdiff.mp hc).1⟩
    · rw [hstate, if_neg hD]
      have hcD : c ∈ subs \ (subs ∩ fails) := by
        rw [Finset.sdiff_inter_self_left]
        exact hc
      exact ⟨subs \ (subs ∩ fails),
        lookup_eraseAllTopics hsubs (Finset.ne_empty_of_mem hcD), hcD⟩

/-- Witness for C1: topic a has subscribers 1 and 2, connection 2 fails:
the broadcast returns 2 − 1 = 1. -/
theorem broadcast_fail_prune_witness :
    ((WSManager.mk {1, 2} [("a", {1, 2})]).broadcast "a" 7 {2}).sent_count = 2 - 1 :=
  (broadcast_fail_prune (WSManager.mk {1, 2} [("a", {1, 2})]) "a" 7 {2} {1, 2} 2 1
    (by decide) (by decide) (by decide)).1

/-- Claim C7: in any registry state satisfying the registry invariant
(which holds in every reachable state), broadcasting to a topic with
zero subscribers returns 0, attempts no send, constructs no envelope,
and leaves the state unchanged; the function is total, so no exception
is raised. -/
theorem broadcast_zero_subscribers (m : WSManager) (t : String) (d : Nat)
    (fails : Finset Conn) (hinv : m.Inv)
    (hzero : m.get_topic_subscribers_count t = 0) :
    m.broadcast t d fails = ⟨m, 0, [], none⟩ := by
  have hnone : m.topics.lookup t = none := by
    cases hl : m.topics.lookup t with
    | none => rfl
    | some s =>
      exfalso
      have hcard : s.card = 0 := by
        unfold WSManager.get_topic_subscribers_count at hzero
        rwa [hl, Option.getD_some] at hzero
      exact hinv (t, s) (mem_of_lookup_eq_some hl) (Finset.card_eq_zero.mp hcard)
  exact broadcast_none m t d fails hnone

/-- Witness for C7: the fresh registry has no subscribers for topic a. -/
theorem broadcast_zero_subscribers_witness :
    WSManager.init.broadcast "a" 0 ∅ = ⟨WSManager.init, 0, [], none⟩ :=
  broadcast_zero_subscribers WSManager.init "a" 0 ∅
    (fun p hp => absurd hp (List.not_mem_nil p)) rfl

/-- Claim C10: if no subscriber of topic t fails its send, broadcast
returns the number of subscribers of t and leaves the whole registry
state unchanged. -/
theorem broadcast_no_fail_frame (m : WSManager) (t : String) (d : Nat)
    (fails : Finset Conn)
    (hdisj : ((m.topics.lookup t).getD ∅) ∩ fails = ∅) :
    (m.broadcast t d fails).state = m ∧
    (m.broadcast t d fails).sent_count = m.get_topic_subscribers_count t := by
  cases hl : m.topics.lookup t with
  | none =>
    rw [broadcast_none m t d fails hl]
    refine ⟨rfl, ?_⟩
    unfold WSManager.get_topic_subscribers_count
    rw [hl]
    rfl
  | some subs =>
    rw [hl, Option.getD_some] at hdisj
    obtain ⟨hcount, hstate⟩ := broadcast_some m t d fails subs hl
    refine ⟨by rw [hstate, if_pos hdisj], ?_⟩
    have hsd : subs \ fails = subs := by
      rw [sdiff_eq_self_iff_disjoint]
      exact (Finset.disjoint_iff_inter_eq_empty.mpr hdisj).symm
    rw [hcount, hsd]
    unfold WSManager.get_topic_subscribers_count
    rw [hl, Option.getD_some]

/-- Witness for C10: both subscribers of topic a succeed, the broadcast
returns 2 and the state is unchanged. -/
theorem broadcast_no_fail_frame_witness :
    ((WSManager.mk {1, 2} [("a", {1, 2})]).broadcast "a" 7 ∅).state =
      WSManager.mk {1, 2} [("a", {1, 2})] ∧
    ((WSManager.mk {1, 2} [("a", {1, 2})]).broadcast "a" 7 ∅).sent_count =
      (WSManager.mk {1, 2} [("a", {1, 2})]).get_topic_subscribers_count "a" :=
  broadcast_no_fail_frame (WSManager.mk {1, 2} [("a", {1, 2})]) "a" 7 ∅ (by decide)

lemma eraseAllTopics_id {T : List (String × Finset Conn)} {c : Conn}
    (h : ∀ p ∈ T, c ∉ p.2 ∧ p.2 ≠ ∅) : eraseAllTopics T {c} = T := by
  induction T with
  | nil => rfl
  | cons p T ih =>
    have h1 := h p (List.mem_cons_self p T)
    have h2 : p.2 \ {c} = p.2 := by
      rw [sdiff_eq_self_iff_disjoint]
      exact Finset.disjoint_singleton_left.mpr h1.1
    rw [eraseAllTopics, if_neg (by rw [h2]; exact h1.2), h2,
      ih fun q hq => h q (List.mem_cons_of_mem p hq)]

/-- Claim C8: disconnect removes the connection from the global set and
from every topic's subscriber set, deletes exactly the topics whose set
thereby becomes empty (they vanish from get_topics), is idempotent, and
is the identity on a connection that is not connected and not subscribed
anywhere (given the registry invariant that holds in reachable
states); the function is total, so no error is raised. -/
theorem disconnect_spec (m : WSManager) (c : Conn) :
    c ∉ (m.disconnect c).connections ∧
    (∀ p ∈ (m.disconnect c).topics, c ∉ p.2 ∧ p.2 ≠ ∅) ∧
    (∀ t, t ∈ (m.disconnect c).get_topics ↔
      ∃ p ∈ m.topics, p.1 = t ∧ p.2.erase c ≠ ∅) ∧
    (m.disconnect c).disconnect c = m.disconnect c ∧
    (c ∉ m.connections → (∀ p ∈ m.topics, c ∉ p.2 ∧ p.2 ≠ ∅) →
      m.disconnect c = m) := by
  refine ⟨?_, ?_, ?_, ?_, ?_⟩
  · rw [disconnect_eq]
    simp
  · intro p hp
    rw [disconnect_eq] at hp
    obtain ⟨q, hq, hpq, hne⟩ := mem_eraseAllTopics.mp hp
    rw [hpq]
    exact ⟨by simp, hne⟩
  · intro t
    unfold WSManager.get_topics
    rw [disconnect_eq]
    simp only [List.mem_map]
    constructor
    · rintro ⟨p, hp, hpt⟩
      obtain ⟨q, hq, hpq, hne⟩ := mem_eraseAllTopics.mp hp
      refine ⟨q, hq, ?_, ?_⟩
      · rw [← hpt, hpq]
      · rwa [Finset.erase_eq]
    · rintro ⟨q, hq, hqt, hne⟩
      refine ⟨(q.1, q.2 \ {c}), ?_, hqt⟩
      exact mem_eraseAllTopics.mpr ⟨q, hq, rfl, by rwa [← Finset.erase_eq]⟩
  · rw [disconnect_eq, disconnect_eq]
    show (⟨(m.connections \ {c}) \ {c},
      eraseAllTopics (eraseAllTopics m.topics {c}) {c}⟩ : WSManager) = _
    rw [WSManager.mk.injEq]
    constructor
    · rw [sdiff_sdiff_eq_union, Finset.union_self]
    · rw [eraseAllTopics_comp, Finset.union_self]
  · intro hc hT
    rw [disconnect_eq, WSManager.mk.injEq]
    constructor
    · rw [sdiff_eq_self_iff_disjoint]
      exact Finset.disjoint_singleton_left.mpr hc
    · exact eraseAllTopics_id hT

/-- Witness for C8: disconnecting connection 1, subscribed to topics a
(alone) and b (with 2), removes it everywhere; topic a vanishes. -/
theorem disconnect_spec_witness :
    1 ∉ ((WSManager.mk {1, 2} [("a", {1}), ("b", {1, 2})]).disconnect 1).connections := by
  have h := disconnect_spec (WSManager.mk {1, 2} [("a", {1}), ("b", {1, 2})]) 1
  exact h.1

lemma lookup_map_insert {T : List (String × Finset Conn)} {t : String}
    {s : Finset Conn} (ws : Conn) (h : T.lookup t = some s) :
    (T.map fun p => if p.1 = t then (p.1, insert ws p.2) else p).lookup t =
      some (insert ws s) := by
  induction T with
  | nil => simp at h
  | cons p T ih =>
    obtain ⟨k, v⟩ := p
    rw [List.lookup_cons] at h
    rw [List.map_cons]
    by_cases ht : t = k
    · subst ht
      simp only [beq_self_eq_true] at h
      have hvs : v = s := Option.some.inj h
      subst hvs
      rw [if_pos rfl, List.lookup_cons]
      simp
    · have hbe : (t == k) = false := beq_eq_false_iff_ne.mpr ht
      simp only [hbe] at h
      rw [if_neg (fun hk => ht hk.symm), List.lookup_cons]
      simp only [hbe]
      exact ih h

lemma lookup_append_new {β : Type} {T : List (String × β)} {t : String}
    (h : T.lookup t = none) (b : β) : (T ++ [(t, b)]).lookup t = some b := by
  induction T with
  | nil => simp [List.lookup_cons]
  | cons p T ih =>
    obtain ⟨k, v⟩ := p
    rw [List.lookup_cons] at h
    rw [List.cons_append, List.lookup_cons]
    by_cases ht : t = k
    · subst ht
      simp only [beq_self_eq_true] at h
      cases h
    · have hbe : (t == k) = false := beq_eq_false_iff_ne.mpr ht
      simp only [hbe] at h ⊢
      exact ih h

/-- Claim C9: subscribe adds the connection to the topic's subscriber
set, creating the set if absent, and returns true; the only failure path
in the source is its catch-all except branch, which is unreachable
because the body performs no send, so subscribe never returns false. -/
theorem subscribe_spec (m : WSManager) (ws : Conn) (t : String) :
    (m.subscribe ws t).2 = true ∧
    ((m.subscribe ws t).1).topics.lookup t =
      some (insert ws ((m.topics.lookup t).getD ∅)) := by
  unfold WSManager.subscribe
  cases hl : m.topics.lookup t with
  | none =>
    rw [if_neg (by simp)]
    exact ⟨rfl, by
      rw [Option.getD_none]
      exact lookup_append_new hl {ws}⟩
  | some s =>
    rw [if_pos (by simp)]
    exact ⟨rfl, by
      rw [Option.getD_some]
      exact lookup_map_insert ws hl⟩

lemma lookup_append_other {β : Type} {T : List (String × β)} {t t' : String}
    (h : t' ≠ t) (b : β) : (T ++ [(t, b)]).lookup t' = T.lookup t' := by
  induction T with
  | nil => simp [List.lookup_cons, beq_eq_false_iff_ne.mpr h]
  | cons p T ih =>
    obtain ⟨k, v⟩ := p
    rw [List.cons_append, List.lookup_cons, List.lookup_cons]
    by_cases ht : t' = k
    · subst ht
      simp
    · have hbe : (t' == k) = false := beq_eq_false_iff_ne.mpr ht
      simp only [hbe]
      exact ih

/-- Claim C4: registering an already registered topic returns false and
mutates nothing; registering a fresh name returns true and stores the
triple with no running task, leaving every other registration and the
delivered-flags set unchanged. -/
theorem register_monitor_spec (m : MonitorManager) (t : String) (f : DataFn)
    (i : Option ℚ) :
    ((m.monitors.lookup t).isSome → m.register_monitor t f i = (m, false)) ∧
    (m.monitors.lookup t = none →
      (m.register_monitor t f i).2 = true ∧
      (m.register_monitor t f i).1.monitors.lookup t = some ⟨f, i, none⟩ ∧
      (∀ t2, t2 ≠ t →
        (m.register_monitor t f i).1.monitors.lookup t2 = m.monitors.lookup t2) ∧
      (m.register_monitor t f i).1.static_sent = m.static_sent) := by
  constructor
  · intro hs
    unfold MonitorManager.register_monitor
    rw [if_pos hs]
  · intro hn
    unfold MonitorManager.register_monitor
    rw [if_neg (by rw [hn]; simp)]
    exact ⟨rfl, lookup_append_new hn _, fun t2 ht2 => lookup_append_other ht2 _, rfl⟩

/-- Witness for C4: a second registration of topic a is rejected and
changes nothing. -/
theorem register_monitor_spec_witness :
    (MonitorManager.init.register_monitor "a" 1 none).1.register_monitor "a" 2 (some 5) =
      ((MonitorManager.init.register_monitor "a" 1 none).1, false) :=
  (register_monitor_spec (MonitorManager.init.register_monitor "a" 1 none).1
    "a" 2 (some 5)).1 (by decide)

lemma startAllAux_cons_some (n : Nat) (t : String) (info : MonitorInfo)
    (rest : List (String × MonitorInfo)) (h : info.task.isSome) :
    startAllAux n ((t, info) :: rest) =
      ((t, info) :: (startAllAux n rest).1, (startAllAux n rest).2) := by
  obtain ⟨ts, hts⟩ := Option.isSome_iff_exists.mp h
  simp [startAllAux, hts]

lemma startAllAux_cons_none (n : Nat) (t : String) (info : MonitorInfo)
    (rest : List (String × MonitorInfo)) (h : info.task = none) :
    startAllAux n ((t, info) :: rest) =
      ((t, { info with task := some ⟨n, kindOf info.interval⟩ }) ::
          (startAllAux (n + 1) rest).1,
        (startAllAux (n + 1) rest).2.1,
        (t, ⟨n, kindOf info.interval⟩) :: (startAllAux (n + 1) rest).2.2) := by
  simp [startAllAux, h]

lemma startAllAux_launch (n : Nat) (T : List (String × MonitorInfo)) :
    ∀ p ∈ (startAllAux n T).2.2, ∃ info : MonitorInfo, (p.1, info) ∈ T ∧
      info.task = none ∧ p.2.kind = kindOf info.interval := by
  induction T generalizing n with
  | nil =>
    intro p hp
    simp [startAllAux] at hp
  | cons q T ih =>
    obtain ⟨t, info⟩ := q
    intro p hp
    cases htask : info.task with
    | some ts =>
      rw [startAllAux_cons_some n t info T (by rw [htask]; rfl)] at hp
      obtain ⟨info2, h1, h2, h3⟩ := ih n p hp
      exact ⟨info2, List.mem_cons_of_mem _ h1, h2, h3⟩
    | none =>
      rw [startAllAux_cons_none n t info T htask] at hp
      rcases List.mem_cons.mp hp with h1 | h1
      · refine ⟨info, ?_, htask, ?_⟩
        · rw [h1]
          exact List.mem_cons_self _ _
        · rw [h1]
      · obtain ⟨info2, h1, h2, h3⟩ := ih (n + 1) p h1
        exact ⟨info2, List.mem_cons_of_mem _ h1, h2, h3⟩

lemma startAllAux_keep (n : Nat) (T : List (String × MonitorInfo)) :
    ∀ t info, (t, info) ∈ T → info.task.isSome → (t, info) ∈ (startAllAux n T).1 := by
  induction T generalizing n with
  | nil =>
    intro t info h
    cases h
  | cons q T ih =>
    obtain ⟨t2, info2⟩ := q
    intro t info hmem hsome
    rcases List.mem_cons.mp hmem with h1 | h1
    · have ht : t = t2 := congrArg Prod.fst h1
      have hi : info = info2 := congrArg Prod.snd h1
      subst ht
      subst hi
      rw [startAllAux_cons_some n t info T hsome]
      exact List.mem_cons_self _ _
    · cases htask : info2.task with
      | some ts =>
        rw [startAllAux_cons_some n t2 info2 T (by rw [htask]; rfl)]
        exact List.mem_cons_of_mem _ (ih n t info h1 hsome)
      | none =>
        rw [startAllAux_cons_none n t2 info2 T htask]
        exact List.mem_cons_of_mem _ (ih (n + 1) t info h1 hsome)

lemma startAllAux_all_some (n : Nat) (T : List (String × MonitorInfo)) :
    ∀ p ∈ (startAllAux n T).1, p.2.task.isSome := by
  induction T generalizing n with
  | nil =>
    intro p hp
    simp [startAllAux] at hp
  | cons q T ih =>
    obtain ⟨t, info⟩ := q
    intro p hp
    cases htask : info.task with
    | some ts =>
      rw [startAllAux_cons_some n t info T (by rw [htask]; rfl)] at hp
      rcases List.mem_cons.mp hp with h1 | h1
      · rw [h1, htask]
        rfl
      · exact ih n p h1
    | none =>
      rw [startAllAux_cons_none n t info T htask] at hp
      rcases List.mem_cons.mp hp with h1 | h1
      · rw [h1]
        rfl
      · exact ih (n + 1) p h1

lemma startAllAux_stable (n : Nat) (T : List (String × MonitorInfo))
    (h : ∀ p ∈ T, p.2.task.isSome) : startAllAux n T = (T, n, []) := by
  induction T generalizing n with
  | nil => rfl
  | cons q T ih =>
    obtain ⟨t, info⟩ := q
    rw [startAllAux_cons_some n t info T (h (t, info) (List.mem_cons_self _ _)),
      ih n fun p hp => h p (List.mem_cons_of_mem _ hp)]

lemma start_all_stable (m : MonitorManager)
    (h : ∀ p ∈ m.monitors, p.2.task.isSome) : m.start_all = (m, []) := by
  unfold MonitorManager.start_all
  rw [startAllAux_stable m.next_task_id m.monitors h]

/-- Claim C6: start_all launches a task only for registered topics whose
task handle is empty — one-shot when the interval is none, periodic
otherwise; topics with a running task keep their entry untouched; after
the call every registered topic holds a task handle (so at most one
task per topic, the handle being a single optional slot), and a
re-invocation of start_all launches nothing and changes nothing. -/
theorem start_all_spec (m : MonitorManager) :
    (∀ p ∈ m.start_all.2, ∃ info : MonitorInfo, (p.1, info) ∈ m.monitors ∧
      info.task = none ∧ p.2.kind = kindOf info.interval) ∧
    (∀ t info, (t, info) ∈ m.monitors → info.task.isSome →
      (t, info) ∈ m.start_all.1.monitors) ∧
    (∀ p ∈ m.start_all.1.monitors, p.2.task.isSome) ∧
    m.start_all.1.start_all = (m.start_all.1, []) := by
  refine ⟨?_, ?_, ?_, ?_⟩
  · exact startAllAux_launch m.next_task_id m.monitors
  · exact fun t info hmem hsome => startAllAux_keep m.next_task_id m.monitors t info hmem hsome
  · exact startAllAux_all_some m.next_task_id m.monitors
  · exact start_all_stable m.start_all.1 (startAllAux_all_some m.next_task_id m.monitors)

/-- Witness for C6: a monitor whose task is already running is kept
untouched by start_all. -/
theorem start_all_spec_witness :
    ("a", (⟨1, none, some ⟨5, TaskKind.oneShot⟩⟩ : MonitorInfo)) ∈
      (MonitorManager.mk [("a", ⟨1, none, some ⟨5, TaskKind.oneShot⟩⟩)] ∅ 6).start_all.1.monitors :=
  (start_all_spec (MonitorManager.mk [("a", ⟨1, none, some ⟨5, TaskKind.oneShot⟩⟩)] ∅ 6)).2.1
    "a" ⟨1, none, some ⟨5, TaskKind.oneShot⟩⟩ (by decide) (by decide)

/-- Claim C2: when a one-shot topic's delivered flag is already set the
task returns immediately with an empty trace (no data-function call, no
broadcast); the flag becomes set only when the broadcast call completed
(outcome ok, with the broadcast event in the trace); after a completed
delivery any re-run of the one-shot task is a no-op; and re-invoking
start_all after start_all launches no task at all, so no second
delivery can arise from repeated start_all calls. -/
theorem send_one_time_spec (m : MonitorManager) (t : String)
    (out out2 : SendOutcome) :
    (t ∈ m.static_sent → m.send_one_time t out = (m, [])) ∧
    (t ∈ (m.send_one_time t out).1.static_sent →
      t ∈ m.static_sent ∨
        (out = SendOutcome.ok ∧ MEvent.bcast t ∈ (m.send_one_time t out).2)) ∧
    (∀ info, m.monitors.lookup t = some info →
      ((m.send_one_time t SendOutcome.ok).1).send_one_time t out2 =
        ((m.send_one_time t SendOutcome.ok).1, [])) ∧
    m.start_all.1.start_all.2 = [] := by
  refine ⟨?_, ?_, ?_, ?_⟩
  · intro hmem
    unfold MonitorManager.send_one_time
    rw [if_pos hmem]
  · intro hflag
    by_cases hmem : t ∈ m.static_sent
    · exact Or.inl hmem
    · unfold MonitorManager.send_one_time at hflag
      rw [if_neg hmem] at hflag
      cases hl : m.monitors.lookup t with
      | none =>
        rw [hl] at hflag
        exact Or.inl hflag
      | some info =>
        rw [hl] at hflag
        cases out with
        | exnCollect => exact Or.inl hflag
        | exnBroadcast => exact Or.inl hflag
        | ok =>
          refine Or.inr ⟨rfl, ?_⟩
          unfold MonitorManager.send_one_time
          rw [if_neg hmem, hl]
          simp
  · intro info hl
    by_cases hmem : t ∈ m.static_sent
    · have h1 : m.send_one_time t SendOutcome.ok = (m, []) := by
        unfold MonitorManager.send_one_time
        rw [if_pos hmem]
      rw [h1]
      unfold MonitorManager.send_one_time
      rw [if_pos hmem]
    · have h1 : (m.send_one_time t SendOutcome.ok).1 =
          { m with static_sent := insert t m.static_sent } := by
        unfold MonitorManager.send_one_time
        rw [if_neg hmem, hl]
      rw [h1]
      unfold MonitorManager.send_one_time
      rw [if_pos (Finset.mem_insert_self t m.static_sent)]
  · rw [start_all_stable m.start_all.1
      (startAllAux_all_some m.next_task_id m.monitors)]

/-- Witness for C2: with the delivered flag already set for topic a, the
one-shot task does nothing. -/
theorem send_one_time_spec_witness :
    (MonitorManager.mk [("a", ⟨1, none, none⟩)] {"a"} 0).send_one_time "a"
        SendOutcome.ok =
      (MonitorManager.mk [("a", ⟨1, none, none⟩)] {"a"} 0, []) :=
  (send_one_time_spec (MonitorManager.mk [("a", ⟨1, none, none⟩)] {"a"} 0) "a"
    SendOutcome.ok SendOutcome.ok).1 (by decide)

/-- Claim C3: each successful steady-state iteration performs, in order,
the data-function call, the timestamp attachment, the sleep for the
registered interval, and the broadcast; a cancellation signal ends the
loop with no further iterations; any other exception during collect or
broadcast is caught, logged, and followed by one more full-interval wait
before the loop continues; and the loop survives any number of
consecutive failures (no retry limit), still broadcasting afterwards. -/
theorem steady_loop_spec (f : DataFn) (t : String) (i : ℚ)
    (rest : List LoopOutcome) :
    steadyLoop f t i (LoopOutcome.ok :: rest) =
      [MEvent.collect f, MEvent.stamp, MEvent.sleep i, MEvent.bcast t] ++
        steadyLoop f t i rest ∧
    steadyLoop f t i (LoopOutcome.cancelled :: rest) =
      [MEvent.collect f, MEvent.stamp, MEvent.logCancelled] ∧
    steadyLoop f t i (LoopOutcome.exnCollect :: rest) =
      [MEvent.collect f, MEvent.logError, MEvent.sleep i] ++
        steadyLoop f t i rest ∧
    steadyLoop f t i (LoopOutcome.exnBroadcast :: rest) =
      [MEvent.collect f, MEvent.stamp, MEvent.sleep i, MEvent.bcast t,
        MEvent.logError, MEvent.sleep i] ++ steadyLoop f t i rest ∧
    ∀ n : Nat, MEvent.bcast t ∈
      steadyLoop f t i (List.replicate n LoopOutcome.exnCollect ++ [LoopOutcome.ok]) := by
  refine ⟨rfl, rfl, rfl, rfl, ?_⟩
  intro n
  induction n with
  | zero => simp [steadyLoop, iterEvents]
  | succ n ih =>
    rw [List.replicate_succ, List.cons_append]
    show MEvent.bcast t ∈ iterEvents f t i LoopOutcome.exnCollect ++
      steadyLoop f t i (List.replicate n LoopOutcome.exnCollect ++ [LoopOutcome.ok])
    exact List.mem_append_right _ ih
